import Mathlib

/-!
# Verification of the nagashi-somen CDC state-reconciliation core

Shallow embedding of `src/nagashi_somen/core.py` (class `DatabaseMonitor`):
the binlog event fold (`handle_event`), the snapshot writer (`save_changes`),
schema loading (`_load_table_schemas`) and the monitoring loop (`_monitor`).

Python dicts are modelled as insertion-ordered association lists; the
module-level logger is modelled by returning the list of emitted log
messages from each operation; file-system writes performed by
`save_changes` are modelled as an explicit trace of file operations;
`pymysql` / I/O failures are modelled by failure oracles.
-/

set_option maxHeartbeats 1000000

section Dict

variable {K V : Type} [DecidableEq K]

/-- Python `d.get(k)`: the value stored at key `k`, if any (first match;
dicts built by the operations below keep keys unique). -/
def dget : List (K × V) → K → Option V
  | [], _ => none
  | (a, b) :: rest, k => if a = k then some b else dget rest k

/-- Python `d[k] = v`: replace the value at `k` in place if the key is
present, else append the binding (insertion order preserved). -/
def dinsert : List (K × V) → K → V → List (K × V)
  | [], k, v => [(k, v)]
  | (a, b) :: rest, k, v =>
    if a = k then (a, v) :: rest else (a, b) :: dinsert rest k v

/-- Python `d.pop(k, None)`: remove the key `k` if present. -/
def dpop : List (K × V) → K → List (K × V)
  | [], _ => []
  | (a, b) :: rest, k => if a = k then dpop rest k else (a, b) :: dpop rest k

/-- Python `d.setdefault(k, v)` (as a state transformer): insert `k ↦ v`
only when `k` is absent. -/
def dsetdefault (d : List (K × V)) (k : K) (v : V) : List (K × V) :=
  if (dget d k).isSome then d else dinsert d k v

/-- Python `d.get(k, v0)`. -/
def dgetD (d : List (K × V)) (k : K) (v0 : V) : V :=
  (dget d k).getD v0

end Dict

/-- A `datetime.datetime` value as carried by binlog rows (microseconds
omitted: the repository's scenarios use second precision). -/
structure Datetime where
  year : Nat
  month : Nat
  day : Nat
  hour : Nat
  minute : Nat
  second : Nat
deriving DecidableEq

/-- Zero-pad to two digits, as `datetime.isoformat` renders components. -/
def pad2 (n : Nat) : String :=
  if n < 10 then "0" ++ toString n else toString n

/-- Zero-pad to four digits (the year of `datetime.isoformat`). -/
def pad4 (n : Nat) : String :=
  if n < 10 then "000" ++ toString n
  else if n < 100 then "00" ++ toString n
  else if n < 1000 then "0" ++ toString n
  else toString n

/-- Python `datetime.isoformat()`: `YYYY-MM-DDTHH:MM:SS`. -/
def Datetime.isoformat (d : Datetime) : String :=
  pad4 d.year ++ "-" ++ pad2 d.month ++ "-" ++ pad2 d.day ++ "T" ++
    pad2 d.hour ++ ":" ++ pad2 d.minute ++ ":" ++ pad2 d.second

/-- A scalar cell value delivered by the event source.  `null` is Python
`None` (both SQL NULL and the result of a missing dict lookup). -/
inductive Value where
  | str (s : String)
  | int (n : Int)
  | bool (b : Bool)
  | null
  | dt (d : Datetime)
deriving DecidableEq

/-- A record: column name to value, insertion-ordered (a Python dict). -/
abbrev Record := List (String × Value)

/-- The table state store `self.table_records`:
table name to (primary key to record). -/
abbrev Store := List (String × List (Value × Record))

/-- `self.table_schemas`: table name to ordered column-name list. -/
abbrev Schemas := List (String × List String)

/-- `dict(zip(columns, vals))` from `handle_event`: zip truncates to the
shorter list, and the dict keeps the last value per repeated key. -/
def zipDict (columns : List String) (vals : List Value) : Record :=
  (List.zip columns vals).foldl (fun d kv => dinsert d kv.1 kv.2) []

/-- `DatabaseMonitor.get_primary_key`: `row.get("id")`.  Python's
`dict.get` returns `None` both for a missing key and a stored `None`;
both are `Value.null` here. -/
def get_primary_key (row : Record) : Value :=
  (dget row "id").getD Value.null

/-- The binlog row events consumed by `handle_event`
(`pymysqlreplication.row_event`).  Write/delete rows carry
`row["values"].values()` as a positional value list; update rows carry
`(before_values, after_values)`.  `OtherEvent` stands for any event of a
type other than the three handled ones (`handle_event` is typed on
arbitrary events and falls through all three `isinstance` branches). -/
inductive Event where
  | WriteRowsEvent (table : String) (rows : List (List Value))
  | UpdateRowsEvent (table : String) (rows : List (List Value × List Value))
  | DeleteRowsEvent (table : String) (rows : List (List Value))
  | OtherEvent (table : String)
deriving DecidableEq

/-- `event.table`. -/
def Event.table : Event → String
  | .WriteRowsEvent t _ => t
  | .UpdateRowsEvent t _ => t
  | .DeleteRowsEvent t _ => t
  | .OtherEvent t => t

/-- The `DatabaseMonitor` state (the fields mutated by the core logic;
connection parameters `config`, `database`, `server_id` play no role in
the state transitions and are omitted). -/
structure DatabaseMonitor where
  table_records : Store
  table_schemas : Schemas
  recording : Bool
  output_dir : String
deriving DecidableEq

/-- `DatabaseMonitor.__init__`: empty store and schemas, recording on
(the `os.makedirs` side effect is outside the state model). -/
def DatabaseMonitor.mkNew (output_dir : String) : DatabaseMonitor :=
  { table_records := [], table_schemas := [], recording := true,
    output_dir := output_dir }

/-- One `WriteRowsEvent` row applied to the table's key-mapping:
`values = dict(zip(columns, row["values"].values()))`, then
`self.table_records[table][pk] = values` when the key resolves. -/
def innerW (columns : List String) (recs : List (Value × Record))
    (vals : List Value) : List (Value × Record) :=
  let values := zipDict columns vals
  let pk := get_primary_key values
  if pk ≠ Value.null then dinsert recs pk values else recs

/-- One `UpdateRowsEvent` row: only `row["after_values"]` is used. -/
def innerU (columns : List String) (recs : List (Value × Record))
    (ba : List Value × List Value) : List (Value × Record) :=
  let after_values := zipDict columns ba.2
  let pk := get_primary_key after_values
  if pk ≠ Value.null then dinsert recs pk after_values else recs

/-- One `DeleteRowsEvent` row: `self.table_records[table].pop(pk, None)`
when the key resolves. -/
def innerD (columns : List String) (recs : List (Value × Record))
    (vals : List Value) : List (Value × Record) :=
  let values := zipDict columns vals
  let pk := get_primary_key values
  if pk ≠ Value.null then dpop recs pk else recs

/-- `DatabaseMonitor.handle_event`.  `setdefault` first guarantees the
table an entry; each row then mutates the table's inner key-mapping in
place (modelled by folding the per-row action over the mapping and
storing the result back at the table's existing position).  The second
component is the list of log messages the call emits (the source
contains no logging call in this method, so it is `[]` on every path). -/
def DatabaseMonitor.handle_event (m : DatabaseMonitor) (event : Event) :
    DatabaseMonitor × List String :=
  let table := event.table
  let tr := dsetdefault m.table_records table []
  let columns := dgetD m.table_schemas table []
  let inner := dgetD tr table []
  match event with
  | .WriteRowsEvent _ rows =>
    ({ m with table_records := dinsert tr table (rows.foldl (innerW columns) inner) }, [])
  | .UpdateRowsEvent _ rows =>
    ({ m with table_records := dinsert tr table (rows.foldl (innerU columns) inner) }, [])
  | .DeleteRowsEvent _ rows =>
    ({ m with table_records := dinsert tr table (rows.foldl (innerD columns) inner) }, [])
  | .OtherEvent _ => ({ m with table_records := tr }, [])

/-- One processed event: the state component of `handle_event`. -/
def DatabaseMonitor.step (m : DatabaseMonitor) (e : Event) : DatabaseMonitor :=
  (m.handle_event e).1

/-- JSON values as produced by `json.dump` (the artifact content is
modelled as a JSON tree; text-layout options such as `indent=2` and
`ensure_ascii=False` do not change the tree). -/
inductive Json where
  | str (s : String)
  | num (n : Int)
  | bool (b : Bool)
  | null
  | arr (xs : List Json)
  | obj (fields : List (String × Json))

/-- How `json.dump` with the `DateTimeEncoder` of `save_changes` renders
one cell: JSON primitives, except `datetime` values, which are rendered
as their ISO-8601 `isoformat()` string. -/
def renderValue : Value → Json
  | .str s => .str s
  | .int n => .num n
  | .bool b => .bool b
  | .null => .null
  | .dt d => .str d.isoformat

/-- A record as a JSON object, field order preserved. -/
def renderRecord (r : Record) : Json :=
  .obj (r.map (fun kv => (kv.1, renderValue kv.2)))

/-- `list(records.values())` rendered: the JSON array of a table's
current record values, in insertion order. -/
def tableJson (records : List (Value × Record)) : Json :=
  .arr (records.map (fun kv => renderRecord kv.2))

/-- `os.path.join(self.output_dir, f"{table}.json")` for a plain
directory path. -/
def tablePath (dir table : String) : String :=
  dir ++ "/" ++ table ++ ".json"

/-- A file-system effect.  `write p c` is `open(p, "w")` followed by a
full `json.dump` of `c`; `rename src dst` is an atomic replace (listed so
that its absence from `save_changes` traces is expressible — the source
never performs one). -/
inductive FsOp where
  | write (path : String) (content : Json)
  | rename (src : String) (dst : String)

/-- Whether an effect is an atomic rename. -/
def FsOp.isRename : FsOp → Bool
  | .write _ _ => false
  | .rename _ _ => true

/-- The path an effect touches. -/
def FsOp.path : FsOp → String
  | .write p _ => p
  | .rename _ dst => dst

/-- Result of a `save_changes` call: the file operations performed in
order, the log messages emitted, and whether the call returned normally
(`ok = false` models an uncaught `OSError` escaping the method). -/
structure SaveResult where
  ops : List FsOp
  log : List String
  ok : Bool

/-- The `for table, records in self.table_records.items()` loop of
`save_changes`.  `fails path` models `open(path, "w")` (or the dump into
it) raising `OSError`; there is no try/except in the loop, so the first
failure aborts it with the exception propagating. -/
def saveLoop (dir : String) (fails : String → Bool) :
    Store → List FsOp × Bool
  | [] => ([], true)
  | (table, records) :: rest =>
    let path := tablePath dir table
    if fails path then ([], false)
    else
      let r := saveLoop dir fails rest
      (FsOp.write path (tableJson records) :: r.1, r.2)

/-- `DatabaseMonitor.save_changes`: dump every table of `table_records`
to `<output_dir>/<table>.json`; `logging.info("Snapshot saved.")` is
reached only when the loop completes. -/
def DatabaseMonitor.save_changes (m : DatabaseMonitor)
    (fails : String → Bool) : SaveResult :=
  let r := saveLoop m.output_dir fails m.table_records
  { ops := r.1, log := if r.2 then ["Snapshot saved."] else [], ok := r.2 }

/-- `DatabaseMonitor.stop_recording`: log, clear the recording flag, then
`save_changes` (whose failure would propagate to the caller). -/
def DatabaseMonitor.stop_recording (m : DatabaseMonitor)
    (fails : String → Bool) : DatabaseMonitor × SaveResult × List String :=
  let m' := { m with recording := false }
  let sr := m'.save_changes fails
  (m', sr, "Stopping monitor and saving JSON snapshots..." :: sr.log)

/-- The per-table loop of `_load_table_schemas`.  `oracle t` is the
`SHOW COLUMNS FROM <database>.<t>` query: `some cols` on success, `none`
when it raises `pymysql.Error`.  The single try/except wraps the whole
loop, so the first failure aborts it, keeping only the schemas loaded so
far. -/
def loadLoop (oracle : String → Option (List String)) (schemas : Schemas) :
    List String → Schemas × Bool
  | [] => (schemas, true)
  | t :: rest =>
    match oracle t with
    | none => (schemas, false)
    | some cols => loadLoop oracle (dinsert schemas t cols) rest

/-- `DatabaseMonitor._load_table_schemas` over the table list returned by
the `INFORMATION_SCHEMA.TABLES` query (that initial query is assumed to
succeed; per-table column queries go through `oracle`).  Returns the
updated monitor and the emitted log messages; on failure the error is
logged once and startup continues. -/
def DatabaseMonitor.load_table_schemas (m : DatabaseMonitor)
    (tables : List String) (oracle : String → Option (List String)) :
    DatabaseMonitor × List String :=
  let r := loadLoop oracle m.table_schemas tables
  ({ m with table_schemas := r.1 },
    (if r.2 then [] else ["Error loading table schemas"]) ++
      ["Binlog monitoring started. Press Ctrl+C to stop."])

/-- One pull from the `BinLogStreamReader` iterator: an event, or the
pull raising `pymysql.Error`, `KeyboardInterrupt`, or any other
exception. -/
inductive StreamItem where
  | ev (e : Event)
  | mysqlError
  | keyboardInterrupt
  | otherError

/-- How the `for binlog_event in stream` loop of `_monitor` ended. -/
inductive LoopExit where
  | finished
  | mysqlErr
  | kbInt
  | otherErr
deriving DecidableEq

/-- The pull loop of `_monitor`: the recording flag is checked before
each event is handled; an exception item ends the loop with the
corresponding exit. -/
def runLoop (m : DatabaseMonitor) : List StreamItem → DatabaseMonitor × LoopExit
  | [] => (m, .finished)
  | .ev e :: rest => if m.recording then runLoop (m.step e) rest else (m, .finished)
  | .mysqlError :: _ => (m, .mysqlErr)
  | .keyboardInterrupt :: _ => (m, .kbInt)
  | .otherError :: _ => (m, .otherErr)

/-- Outcome of `_monitor`: final monitor state, the flushes performed
(`save_changes` calls, in order), emitted log messages, whether
`stream.close()` ran, and whether an exception propagated out. -/
structure MonitorResult where
  monitor : DatabaseMonitor
  saves : List SaveResult
  log : List String
  closed : Bool
  raised : Bool

/-- `DatabaseMonitor._monitor` over an already-open stream (the
`BinLogStreamReader` constructor succeeded, so `stream` is not `None`
and the `finally` block always closes it).  `pymysql.Error` is caught
and logged with no flush; `KeyboardInterrupt` triggers
`stop_recording` (the only flush); any other exception is logged and
re-raised; a failing flush propagates after the `finally`. -/
def DatabaseMonitor.monitorRun (m : DatabaseMonitor) (fails : String → Bool)
    (items : List StreamItem) : MonitorResult :=
  let r := runLoop m items
  match r.2 with
  | .finished =>
    { monitor := r.1, saves := [], log := ["Binlog monitoring stopped."],
      closed := true, raised := false }
  | .mysqlErr =>
    { monitor := r.1, saves := [],
      log := ["MySQL Error", "Binlog monitoring stopped."],
      closed := true, raised := false }
  | .kbInt =>
    let s := r.1.stop_recording fails
    { monitor := s.1, saves := [s.2.1],
      log := s.2.2 ++ ["Binlog monitoring stopped."],
      closed := true, raised := !s.2.1.ok }
  | .otherErr =>
    { monitor := r.1, saves := [],
      log := ["Unexpected error", "Binlog monitoring stopped."],
      closed := true, raised := true }

/-- A normalized mutation, as §4.2 of the spec describes: an upsert
(`newRecord = some r`) or a remove (`newRecord = none`) of one key in one
table. -/
structure Mutation where
  table : String
  key : Value
  newRecord : Option Record
deriving DecidableEq

/-- The key-resolving upserts of an insert-shaped event. -/
def opsW (cols : List String) (t : String) (rows : List (List Value)) :
    List Mutation :=
  rows.filterMap (fun vals =>
    let v := zipDict cols vals
    let pk := get_primary_key v
    if pk ≠ Value.null then some { table := t, key := pk, newRecord := some v }
    else none)

/-- The key-resolving upserts of an update-shaped event (after-values
only). -/
def opsU (cols : List String) (t : String)
    (rows : List (List Value × List Value)) : List Mutation :=
  rows.filterMap (fun ba =>
    let v := zipDict cols ba.2
    let pk := get_primary_key v
    if pk ≠ Value.null then some { table := t, key := pk, newRecord := some v }
    else none)

/-- The key-resolving removes of a delete-shaped event. -/
def opsD (cols : List String) (t : String) (rows : List (List Value)) :
    List Mutation :=
  rows.filterMap (fun vals =>
    let v := zipDict cols vals
    let pk := get_primary_key v
    if pk ≠ Value.null then some { table := t, key := pk, newRecord := none }
    else none)

/-- The non-skipped mutations an event contributes, in row order
(§4.2 Event Normalizer: unkeyable rows contribute nothing). -/
def Event.ops (schemas : Schemas) : Event → List Mutation
  | .WriteRowsEvent t rows => opsW (dgetD schemas t []) t rows
  | .UpdateRowsEvent t rows => opsU (dgetD schemas t []) t rows
  | .DeleteRowsEvent t rows => opsD (dgetD schemas t []) t rows
  | .OtherEvent _ => []

/-- The last-write-wins reading of a mutation list at one (table, key):
`some (some r)` when the last matching mutation is an upsert of `r`,
`some none` when it is a remove, `none` when no mutation matches. -/
def lwwLookup : List Mutation → String → Value → Option (Option Record)
  | [], _, _ => none
  | op :: rest, t, k =>
    match lwwLookup rest t k with
    | some r => some r
    | none => if op.table = t ∧ op.key = k then some op.newRecord else none

/-- The record a store holds for key `k` of table `t`, if any. -/
def lookupRecord (s : Store) (t : String) (k : Value) : Option Record :=
  (dget s t).bind (fun records => dget records k)

/-- Whether every row of the event fails key resolution (so the whole
event is skipped), or the event matches none of the three handled
variants. -/
def Event.skipsAll (schemas : Schemas) : Event → Bool
  | .WriteRowsEvent t rows =>
    rows.all (fun vals => get_primary_key (zipDict (dgetD schemas t []) vals) = Value.null)
  | .UpdateRowsEvent t rows =>
    rows.all (fun ba => get_primary_key (zipDict (dgetD schemas t []) ba.2) = Value.null)
  | .DeleteRowsEvent t rows =>
    rows.all (fun vals => get_primary_key (zipDict (dgetD schemas t []) vals) = Value.null)
  | .OtherEvent _ => true

/-- Concrete schema registry for the executable checks below. -/
def exSchemas : Schemas := [("users", ["id", "name", "updated_at"])]

/-- Concrete key-mapping of table `users`: one record with a timestamp. -/
def exRecs : List (Value × Record) :=
  [(Value.int 1,
    [("id", Value.int 1), ("name", Value.str "Ann"),
      ("updated_at", Value.dt ⟨2024, 1, 2, 3, 4, 5⟩)])]

/-- Concrete monitor mid-run with one buffered record. -/
def exMonitor : DatabaseMonitor :=
  { table_records := [("users", exRecs)], table_schemas := exSchemas,
    recording := true, output_dir := "out" }

/-- Concrete monitor with nothing loaded and nothing buffered. -/
def exEmptyMonitor : DatabaseMonitor :=
  { table_records := [], table_schemas := [], recording := true,
    output_dir := "out" }

/-- Insert event for a table with no schema: the zipped record is empty,
so its key never resolves. -/
def exUnkeyedEvent : Event := .WriteRowsEvent "t" [[Value.int 7]]

/-- Concrete monitor with two buffered tables. -/
def exTwoTables : DatabaseMonitor :=
  { table_records := [("a", []), ("b", [])], table_schemas := [],
    recording := true, output_dir := "out" }

/-- I/O oracle failing exactly on table `a`'s artifact. -/
def exFailA : String → Bool := fun p => p == "out/a.json"

/-- Schema oracle: fails for table `a`, succeeds for table `b`. -/
def exOracle : String → Option (List String) :=
  fun t => if t = "b" then some ["id"] else none

section Dict

variable {K V : Type} [DecidableEq K]

theorem dget_dinsert (d : List (K × V)) (k k' : K) (v : V) :
    dget (dinsert d k v) k' = if k = k' then some v else dget d k' := by
  induction d with
  | nil => simp [dget, dinsert]
  | cons hd tl ih =>
    obtain ⟨a, b⟩ := hd
    by_cases hak : a = k
    · subst hak
      by_cases hk' : a = k' <;> simp [dget, dinsert, hk']
    · by_cases hk' : a = k'
      · subst hk'
        simp [dget, dinsert, hak, Ne.symm hak]
      · simp [dget, dinsert, hak, hk', ih]

theorem dget_dinsert_self (d : List (K × V)) (k : K) (v : V) :
    dget (dinsert d k v) k = some v := by
  simp [dget_dinsert]

theorem dinsert_dinsert (d : List (K × V)) (k : K) (v w : V) :
    dinsert (dinsert d k v) k w = dinsert d k w := by
  induction d with
  | nil => simp [dinsert]
  | cons hd tl ih =>
    obtain ⟨a, b⟩ := hd
    by_cases hak : a = k <;> simp [dinsert, hak, ih]

theorem dinsert_self (d : List (K × V)) (k : K) (v : V)
    (h : dget d k = some v) : dinsert d k v = d := by
  induction d with
  | nil => simp [dget] at h
  | cons hd tl ih =>
    obtain ⟨a, b⟩ := hd
    by_cases hak : a = k
    · subst hak
      simp [dget] at h
      simp [dinsert, h]
    · simp [dget, hak] at h
      simp [dinsert, hak, ih h]

theorem dget_dpop (d : List (K × V)) (k k' : K) :
    dget (dpop d k) k' = if k = k' then none else dget d k' := by
  induction d with
  | nil => simp [dget, dpop]
  | cons hd tl ih =>
    obtain ⟨a, b⟩ := hd
    by_cases hak : a = k
    · subst hak
      by_cases hk' : a = k'
      · subst hk'
        simp [dget, dpop, ih]
      · simp [dget, dpop, hk', ih]
    · have hka : ¬ k = a := fun h => hak h.symm
      by_cases hk' : a = k'
      · subst hk'
        simp [dget, dpop, hak, hka]
      · simp [dget, dpop, hak, hk', ih]

theorem dpop_of_none (d : List (K × V)) (k : K)
    (h : dget d k = none) : dpop d k = d := by
  induction d with
  | nil => simp [dpop]
  | cons hd tl ih =>
    obtain ⟨a, b⟩ := hd
    by_cases hak : a = k
    · subst hak; simp [dget] at h
    · simp [dget, hak] at h
      simp [dpop, hak, ih h]

theorem dsetdefault_of_isSome (d : List (K × V)) (k : K) (v : V)
    (h : (dget d k).isSome) : dsetdefault d k v = d := by
  simp [dsetdefault, h]

theorem dget_dsetdefault (d : List (K × V)) (k k' : K) (v : V) :
    dget (dsetdefault d k v) k' =
      if k = k' then some ((dget d k).getD v) else dget d k' := by
  cases hk : dget d k with
  | none =>
    by_cases hkk : k = k'
    · subst hkk; simp [dsetdefault, hk, dget_dinsert]
    · simp [dsetdefault, hk, dget_dinsert, hkk]
  | some w =>
    by_cases hkk : k = k'
    · subst hkk; simp [dsetdefault, hk]
    · simp [dsetdefault, hk, hkk]

theorem dget_mem (d : List (K × V)) (k : K) (v : V)
    (h : dget d k = some v) : (k, v) ∈ d := by
  induction d with
  | nil => simp [dget] at h
  | cons hd tl ih =>
    obtain ⟨a, b⟩ := hd
    by_cases hak : a = k
    · subst hak
      simp [dget] at h
      subst h
      exact List.mem_cons_self _ _
    · simp [dget, hak] at h
      exact List.mem_cons_of_mem _ (ih h)

end Dict

/-- `handle_event` emits no log message on any path. -/
theorem handle_event_log (m : DatabaseMonitor) (e : Event) :
    (m.handle_event e).2 = [] := by
  cases e <;> rfl

/-- `handle_event` never touches `table_schemas`, the recording flag or
the output directory. -/
theorem step_table_schemas (m : DatabaseMonitor) (e : Event) :
    (m.step e).table_schemas = m.table_schemas := by
  cases e <;> rfl

theorem step_recording (m : DatabaseMonitor) (e : Event) :
    (m.step e).recording = m.recording := by
  cases e <;> rfl

theorem step_output_dir (m : DatabaseMonitor) (e : Event) :
    (m.step e).output_dir = m.output_dir := by
  cases e <;> rfl

/-- Frame: processing an event leaves every other table's store entry
untouched. -/
theorem dget_step_ne (m : DatabaseMonitor) (e : Event) (t : String)
    (ht : t ≠ e.table) :
    dget (m.step e).table_records t = dget m.table_records t := by
  have ht' : ¬ e.table = t := fun h => ht h.symm
  cases e <;>
    simp [DatabaseMonitor.step, DatabaseMonitor.handle_event, Event.table,
      dget_dinsert, dget_dsetdefault, ht'] at ht' ⊢ <;>
    simp [ht']

/-- After `handle_event`, the event's table always has a store entry. -/
theorem dget_step_self_isSome (m : DatabaseMonitor) (e : Event) :
    (dget (m.step e).table_records e.table).isSome := by
  cases e <;>
    simp [DatabaseMonitor.step, DatabaseMonitor.handle_event, Event.table,
      dget_dinsert, dget_dsetdefault]

/-- Reading through a missing table entry is reading the empty mapping. -/
theorem lookupRecord_eq_getD (s : Store) (t : String) (k : Value) :
    dget ((dget s t).getD []) k = lookupRecord s t k := by
  cases h : dget s t <;> simp [lookupRecord, h, dget]

/-- Row-level last-write-wins for insert-shaped rows. -/
theorem dget_foldl_innerW (cols : List String) (t : String)
    (rows : List (List Value)) (recs : List (Value × Record)) (k : Value) :
    dget (rows.foldl (innerW cols) recs) k
      = (lwwLookup (opsW cols t rows) t k).getD (dget recs k) := by
  induction rows generalizing recs with
  | nil => simp [opsW, lwwLookup]
  | cons vals rest ih =>
    by_cases hpk : get_primary_key (zipDict cols vals) ≠ Value.null
    · rw [show opsW cols t (vals :: rest)
          = { table := t, key := get_primary_key (zipDict cols vals),
              newRecord := some (zipDict cols vals) } :: opsW cols t rest by
            simp [opsW, hpk]]
      simp only [List.foldl_cons]
      rw [ih]
      cases hl : lwwLookup (opsW cols t rest) t k with
      | some r => simp [lwwLookup, hl]
      | none =>
        by_cases hk : get_primary_key (zipDict cols vals) = k
        · rw [hk] at hpk
          simp [lwwLookup, hl, innerW, hpk, dget_dinsert, hk]
        · simp [lwwLookup, hl, innerW, hpk, dget_dinsert, hk]
    · rw [show opsW cols t (vals :: rest) = opsW cols t rest by simp [opsW, hpk]]
      simp only [List.foldl_cons]
      rw [show innerW cols recs vals = recs by simp [innerW, hpk]]
      exact ih recs

/-- Row-level last-write-wins for update-shaped rows. -/
theorem dget_foldl_innerU (cols : List String) (t : String)
    (rows : List (List Value × List Value)) (recs : List (Value × Record))
    (k : Value) :
    dget (rows.foldl (innerU cols) recs) k
      = (lwwLookup (opsU cols t rows) t k).getD (dget recs k) := by
  induction rows generalizing recs with
  | nil => simp [opsU, lwwLookup]
  | cons ba rest ih =>
    by_cases hpk : get_primary_key (zipDict cols ba.2) ≠ Value.null
    · rw [show opsU cols t (ba :: rest)
          = { table := t, key := get_primary_key (zipDict cols ba.2),
              newRecord := some (zipDict cols ba.2) } :: opsU cols t rest by
            simp [opsU, hpk]]
      simp only [List.foldl_cons]
      rw [ih]
      cases hl : lwwLookup (opsU cols t rest) t k with
      | some r => simp [lwwLookup, hl]
      | none =>
        by_cases hk : get_primary_key (zipDict cols ba.2) = k
        · rw [hk] at hpk
          simp [lwwLookup, hl, innerU, hpk, dget_dinsert, hk]
        · simp [lwwLookup, hl, innerU, hpk, dget_dinsert, hk]
    · rw [show opsU cols t (ba :: rest) = opsU cols t rest by simp [opsU, hpk]]
      simp only [List.foldl_cons]
      rw [show innerU cols recs ba = recs by simp [innerU, hpk]]
      exact ih recs

/-- Row-level last-write-wins for delete-shaped rows. -/
theorem dget_foldl_innerD (cols : List String) (t : String)
    (rows : List (List Value)) (recs : List (Value × Record)) (k : Value) :
    dget (rows.foldl (innerD cols) recs) k
      = (lwwLookup (opsD cols t rows) t k).getD (dget recs k) := by
  induction rows generalizing recs with
  | nil => simp [opsD, lwwLookup]
  | cons vals rest ih =>
    by_cases hpk : get_primary_key (zipDict cols vals) ≠ Value.null
    · rw [show opsD cols t (vals :: rest)
          = { table := t, key := get_primary_key (zipDict cols vals),
              newRecord := none } :: opsD cols t rest by
            simp [opsD, hpk]]
      simp only [List.foldl_cons]
      rw [ih]
      cases hl : lwwLookup (opsD cols t rest) t k with
      | some r => simp [lwwLookup, hl]
      | none =>
        by_cases hk : get_primary_key (zipDict cols vals) = k
        · rw [hk] at hpk
          simp [lwwLookup, hl, innerD, hpk, dget_dpop, hk]
        · simp [lwwLookup, hl, innerD, hpk, dget_dpop, hk]
    · rw [show opsD cols t (vals :: rest) = opsD cols t rest by simp [opsD, hpk]]
      simp only [List.foldl_cons]
      rw [show innerD cols recs vals = recs by simp [innerD, hpk]]
      exact ih recs

/-- Every mutation contributed by an event targets the event's table. -/
theorem ops_table_eq (schemas : Schemas) (e : Event) (op : Mutation)
    (h : op ∈ e.ops schemas) : op.table = e.table := by
  cases e with
  | WriteRowsEvent t rows =>
    simp only [Event.ops, opsW, List.mem_filterMap] at h
    obtain ⟨vals, hmem, hv⟩ := h
    split at hv
    · simp only [Option.some.injEq] at hv
      subst hv
      rfl
    · simp at hv
  | UpdateRowsEvent t rows =>
    simp only [Event.ops, opsU, List.mem_filterMap] at h
    obtain ⟨ba, hmem, hv⟩ := h
    split at hv
    · simp only [Option.some.injEq] at hv
      subst hv
      rfl
    · simp at hv
  | DeleteRowsEvent t rows =>
    simp only [Event.ops, opsD, List.mem_filterMap] at h
    obtain ⟨vals, hmem, hv⟩ := h
    split at hv
    · simp only [Option.some.injEq] at hv
      subst hv
      rfl
    · simp at hv
  | OtherEvent t => simp [Event.ops] at h

/-- A mutation list scoped to one table resolves nothing elsewhere. -/
theorem lwwLookup_of_table_ne (ops : List Mutation) (t0 t : String) (k : Value)
    (hall : ∀ op ∈ ops, op.table = t0) (ht : t ≠ t0) :
    lwwLookup ops t k = none := by
  induction ops with
  | nil => rfl
  | cons op rest ih =>
    have hrest := ih (fun o ho => hall o (List.mem_cons_of_mem _ ho))
    have hop : op.table = t0 := hall op (List.mem_cons_self _ _)
    simp [lwwLookup, hrest, hop, Ne.symm ht]

/-- The key-mapping `handle_event` starts a row loop from reads exactly
what the store held for the table (absent table = empty mapping). -/
theorem inner_start (s : Store) (t : String) (k : Value) :
    dget (dgetD (dsetdefault s t []) t []) k = lookupRecord s t k := by
  rw [dgetD, dget_dsetdefault]
  simp [lookupRecord_eq_getD]

/-- One event's effect on any (table, key) is its own last-write-wins
outcome, falling back to the prior state. -/
theorem lookupRecord_step (m : DatabaseMonitor) (e : Event) (t : String)
    (k : Value) :
    lookupRecord (m.step e).table_records t k
      = (lwwLookup (e.ops m.table_schemas) t k).getD
          (lookupRecord m.table_records t k) := by
  by_cases ht : t = e.table
  · subst ht
    cases e with
    | WriteRowsEvent tbl rows =>
      show lookupRecord (dinsert (dsetdefault m.table_records tbl []) tbl
          (rows.foldl (innerW (dgetD m.table_schemas tbl []))
            (dgetD (dsetdefault m.table_records tbl []) tbl []))) tbl k = _
      rw [lookupRecord, dget_dinsert_self, Option.some_bind,
        dget_foldl_innerW (dgetD m.table_schemas tbl []) tbl, inner_start]
      rfl
    | UpdateRowsEvent tbl rows =>
      show lookupRecord (dinsert (dsetdefault m.table_records tbl []) tbl
          (rows.foldl (innerU (dgetD m.table_schemas tbl []))
            (dgetD (dsetdefault m.table_records tbl []) tbl []))) tbl k = _
      rw [lookupRecord, dget_dinsert_self, Option.some_bind,
        dget_foldl_innerU (dgetD m.table_schemas tbl []) tbl, inner_start]
      rfl
    | DeleteRowsEvent tbl rows =>
      show lookupRecord (dinsert (dsetdefault m.table_records tbl []) tbl
          (rows.foldl (innerD (dgetD m.table_schemas tbl []))
            (dgetD (dsetdefault m.table_records tbl []) tbl []))) tbl k = _
      rw [lookupRecord, dget_dinsert_self, Option.some_bind,
        dget_foldl_innerD (dgetD m.table_schemas tbl []) tbl, inner_start]
      rfl
    | OtherEvent tbl =>
      show lookupRecord (dsetdefault m.table_records tbl []) tbl k = _
      rw [lookupRecord, dget_dsetdefault]
      simp [Event.ops, lwwLookup, lookupRecord_eq_getD, Event.table]
  · have hlw : lwwLookup (e.ops m.table_schemas) t k = none :=
      lwwLookup_of_table_ne _ e.table t k
        (fun op ho => ops_table_eq m.table_schemas e op ho) ht
    rw [hlw, Option.getD_none, lookupRecord, lookupRecord, dget_step_ne m e t ht]

/-- Later mutations take priority over earlier ones. -/
theorem lwwLookup_append (l1 l2 : List Mutation) (t : String) (k : Value) :
    lwwLookup (l1 ++ l2) t k
      = match lwwLookup l2 t k with
        | some r => some r
        | none => lwwLookup l1 t k := by
  induction l1 with
  | nil =>
    cases h : lwwLookup l2 t k <;> simp [lwwLookup, h]
  | cons op rest ih =>
    show lwwLookup (op :: (rest ++ l2)) t k = _
    rw [lwwLookup, ih]
    cases h2 : lwwLookup l2 t k with
    | some r => rfl
    | none =>
      cases h1 : lwwLookup rest t k <;> simp [lwwLookup, h1]

/-- Folding a finite event stream: each (table, key) holds the
last-write-wins outcome of the whole stream, falling back to the initial
store. -/
theorem lookupRecord_foldl (events : List Event) (m : DatabaseMonitor)
    (t : String) (k : Value) :
    lookupRecord ((events.foldl DatabaseMonitor.step m).table_records) t k
      = (lwwLookup (events.flatMap (fun e => e.ops m.table_schemas)) t k).getD
          (lookupRecord m.table_records t k) := by
  induction events generalizing m with
  | nil => simp [lwwLookup]
  | cons e rest ih =>
    show lookupRecord ((rest.foldl DatabaseMonitor.step (m.step e)).table_records) t k = _
    rw [ih (m.step e), step_table_schemas,
      show (e :: rest).flatMap (fun e => e.ops m.table_schemas)
        = e.ops m.table_schemas ++ rest.flatMap (fun e => e.ops m.table_schemas) by
          simp,
      lwwLookup_append, lookupRecord_step]
    cases h2 : lwwLookup (rest.flatMap (fun e => e.ops m.table_schemas)) t k <;> simp

/-- `save_changes` with no I/O failure writes one artifact per store
entry, in store order. -/
theorem saveLoop_nofail (dir : String) (l : Store) :
    saveLoop dir (fun _ => false) l
      = (l.map (fun e => FsOp.write (tablePath dir e.1) (tableJson e.2)), true) := by
  induction l with
  | nil => rfl
  | cons hd tl ih =>
    obtain ⟨t, recs⟩ := hd
    simp [saveLoop, ih]

/-- Closed form of the `save_changes` loop under a failure oracle: the
artifacts of the longest failure-free prefix are written, and the loop
completes iff no table fails. -/
theorem saveLoop_spec (dir : String) (fails : String → Bool) (l : Store) :
    saveLoop dir fails l
      = ((l.takeWhile (fun e => !fails (tablePath dir e.1))).map
            (fun e => FsOp.write (tablePath dir e.1) (tableJson e.2)),
          l.all (fun e => !fails (tablePath dir e.1))) := by
  induction l with
  | nil => rfl
  | cons hd tl ih =>
    obtain ⟨t, recs⟩ := hd
    by_cases hf : fails (tablePath dir t)
    · simp [saveLoop, hf, List.takeWhile, List.all_cons]
    · simp [saveLoop, hf, ih, List.takeWhile, List.all_cons]

theorem sdata_append (a b : String) : (a ++ b).data = a.data ++ b.data := by
  cases a
  cases b
  rfl

theorem string_eq_of_data {a b : String} (h : a.data = b.data) : a = b := by
  cases a
  cases b
  exact congrArg String.mk h

/-- Distinct tables get distinct artifact paths. -/
theorem tablePath_inj {dir t1 t2 : String}
    (h : tablePath dir t1 = tablePath dir t2) : t1 = t2 := by
  have hd : (tablePath dir t1).data = (tablePath dir t2).data := by rw [h]
  simp only [tablePath, sdata_append, List.append_assoc] at hd
  have h1 := List.append_cancel_left hd
  have h2 := List.append_cancel_left h1
  exact string_eq_of_data (List.append_cancel_right h2)

theorem filter_writes_nil (dir t : String) (l : Store)
    (h : ∀ e ∈ l, e.1 ≠ t) :
    ((l.map (fun e => FsOp.write (tablePath dir e.1) (tableJson e.2))).filter
        (fun op => FsOp.path op == tablePath dir t)) = [] := by
  induction l with
  | nil => rfl
  | cons hd tl ih =>
    have hne : hd.1 ≠ t := h hd (List.mem_cons_self _ _)
    have hbeq : (tablePath dir hd.1 == tablePath dir t) = false := by
      rw [beq_eq_false_iff_ne]
      exact fun hp => hne (tablePath_inj hp)
    simp only [List.map_cons, List.filter_cons, FsOp.path, hbeq,
      Bool.false_eq_true, if_false]
    exact ih (fun e he => h e (List.mem_cons_of_mem _ he))

/-- With unique table keys, exactly the stored table's artifact matches
its path. -/
theorem filter_writes_single (dir t : String) (recs : List (Value × Record))
    (l : Store) (hnd : (l.map Prod.fst).Nodup) (hget : dget l t = some recs) :
    ((l.map (fun e => FsOp.write (tablePath dir e.1) (tableJson e.2))).filter
        (fun op => FsOp.path op == tablePath dir t))
      = [FsOp.write (tablePath dir t) (tableJson recs)] := by
  induction l with
  | nil => simp [dget] at hget
  | cons hd tl ih =>
    obtain ⟨a, b⟩ := hd
    simp only [List.map_cons, List.nodup_cons] at hnd
    obtain ⟨hna, hndtl⟩ := hnd
    by_cases hat : a = t
    · subst hat
      rw [dget] at hget
      simp at hget
      subst hget
      have htl : ∀ e ∈ tl, e.1 ≠ a := by
        intro e he heq
        exact hna (heq ▸ List.mem_map_of_mem Prod.fst he)
      have hbeq : ((FsOp.write (tablePath dir a) (tableJson b)).path
          == tablePath dir a) = true := by
        simp [FsOp.path]
      simp only [List.map_cons, List.filter_cons, hbeq, if_true]
      rw [filter_writes_nil dir a tl htl]
    · have hbeq : ((FsOp.write (tablePath dir a) (tableJson b)).path
          == tablePath dir t) = false := by
        simp only [FsOp.path, beq_eq_false_iff_ne, ne_eq]
        exact fun hp => hat (tablePath_inj hp)
      simp only [dget, if_neg hat] at hget
      simp only [List.map_cons, List.filter_cons, hbeq,
        Bool.false_eq_true, if_false]
      exact ih hndtl hget

/-- A row loop in which every row fails key resolution changes nothing. -/
theorem foldl_innerW_skip (cols : List String) (rows : List (List Value))
    (recs : List (Value × Record))
    (h : rows.all (fun vals => get_primary_key (zipDict cols vals) = Value.null)) :
    rows.foldl (innerW cols) recs = recs := by
  induction rows generalizing recs with
  | nil => rfl
  | cons vals rest ih =>
    simp only [List.all_cons, Bool.and_eq_true, decide_eq_true_eq] at h
    rw [List.foldl_cons, show innerW cols recs vals = recs by simp [innerW, h.1]]
    exact ih recs (by simpa using h.2)

theorem foldl_innerU_skip (cols : List String)
    (rows : List (List Value × List Value)) (recs : List (Value × Record))
    (h : rows.all (fun ba => get_primary_key (zipDict cols ba.2) = Value.null)) :
    rows.foldl (innerU cols) recs = recs := by
  induction rows generalizing recs with
  | nil => rfl
  | cons ba rest ih =>
    simp only [List.all_cons, Bool.and_eq_true, decide_eq_true_eq] at h
    rw [List.foldl_cons, show innerU cols recs ba = recs by simp [innerU, h.1]]
    exact ih recs (by simpa using h.2)

theorem foldl_innerD_skip (cols : List String) (rows : List (List Value))
    (recs : List (Value × Record))
    (h : rows.all (fun vals => get_primary_key (zipDict cols vals) = Value.null)) :
    rows.foldl (innerD cols) recs = recs := by
  induction rows generalizing recs with
  | nil => rfl
  | cons vals rest ih =>
    simp only [List.all_cons, Bool.and_eq_true, decide_eq_true_eq] at h
    rw [List.foldl_cons, show innerD cols recs vals = recs by simp [innerD, h.1]]
    exact ih recs (by simpa using h.2)

/-- Storing back the mapping `setdefault` guarantees is a no-op. -/
theorem dinsert_dsetdefault_self (s : Store) (t : String) :
    dinsert (dsetdefault s t []) t (dgetD (dsetdefault s t []) t []) =
      dsetdefault s t [] := by
  apply dinsert_self
  rw [dgetD, dget_dsetdefault]
  simp [dget_dsetdefault]

/-- Monitors are equal when all four fields are. -/
theorem monitor_eq (m1 m2 : DatabaseMonitor)
    (h1 : m1.table_records = m2.table_records)
    (h2 : m1.table_schemas = m2.table_schemas)
    (h3 : m1.recording = m2.recording)
    (h4 : m1.output_dir = m2.output_dir) : m1 = m2 := by
  cases m1
  cases m2
  simp only at h1 h2 h3 h4
  subst h1 h2 h3 h4
  rfl

/-- A delete-row loop never (re)introduces a key. -/
theorem dget_foldl_innerD_preserve (cols : List String)
    (rows : List (List Value)) (recs : List (Value × Record)) (k : Value)
    (h : dget recs k = none) :
    dget (rows.foldl (innerD cols) recs) k = none := by
  induction rows generalizing recs with
  | nil => exact h
  | cons vals rest ih =>
    rw [List.foldl_cons]
    apply ih
    by_cases hpk : get_primary_key (zipDict cols vals) ≠ Value.null
    · simp [innerD, hpk, dget_dpop, h]
    · simp [innerD, hpk, h]

/-- After a delete-row loop, every key the loop resolved is gone. -/
theorem dget_foldl_innerD_removed (cols : List String)
    (rows : List (List Value)) (recs : List (Value × Record))
    (vals : List Value) (hmem : vals ∈ rows)
    (hpk : get_primary_key (zipDict cols vals) ≠ Value.null) :
    dget (rows.foldl (innerD cols) recs)
      (get_primary_key (zipDict cols vals)) = none := by
  induction rows generalizing recs with
  | nil => cases hmem
  | cons v0 rest ih =>
    rw [List.foldl_cons]
    rcases List.mem_cons.mp hmem with h0 | hmemrest
    · subst h0
      apply dget_foldl_innerD_preserve
      simp [innerD, hpk, dget_dpop]
    · exact ih _ hmemrest

/-- A delete-row loop whose resolved keys are all already absent is the
identity. -/
theorem foldl_innerD_of_absent (cols : List String)
    (rows : List (List Value)) (recs : List (Value × Record))
    (h : ∀ vals ∈ rows, get_primary_key (zipDict cols vals) ≠ Value.null →
        dget recs (get_primary_key (zipDict cols vals)) = none) :
    rows.foldl (innerD cols) recs = recs := by
  induction rows with
  | nil => rfl
  | cons vals rest ih =>
    have hstep : innerD cols recs vals = recs := by
      by_cases hpk : get_primary_key (zipDict cols vals) ≠ Value.null
      · simp only [innerD, if_pos hpk]
        exact dpop_of_none _ _ (h vals (List.mem_cons_self _ _) hpk)
      · simp [innerD, hpk]
    rw [List.foldl_cons, hstep]
    exact ih (fun v hv hk => h v (List.mem_cons_of_mem _ hv) hk)

/-- Closed form of the `_load_table_schemas` loop: the schemas of the
longest failure-free prefix are loaded, and the loop completes iff no
table fails. -/
theorem loadLoop_spec (oracle : String → Option (List String))
    (schemas : Schemas) (tables : List String) :
    loadLoop oracle schemas tables
      = ((tables.takeWhile (fun t => (oracle t).isSome)).foldl
            (fun s t => dinsert s t ((oracle t).getD [])) schemas,
          tables.all (fun t => (oracle t).isSome)) := by
  induction tables generalizing schemas with
  | nil => rfl
  | cons t rest ih =>
    cases ho : oracle t with
    | none => simp [loadLoop, ho, List.takeWhile, List.all_cons]
    | some cols => simp [loadLoop, ho, ih, List.takeWhile, List.all_cons]

/-- A fully-skipped event only runs the `setdefault`. -/
theorem step_records_of_skipsAll (m : DatabaseMonitor) (e : Event)
    (h : e.skipsAll m.table_schemas = true) :
    (m.step e).table_records = dsetdefault m.table_records e.table [] := by
  cases e with
  | WriteRowsEvent t rows =>
    simp only [Event.skipsAll] at h
    show dinsert (dsetdefault m.table_records t []) t
        (rows.foldl (innerW (dgetD m.table_schemas t []))
          (dgetD (dsetdefault m.table_records t []) t [])) = _
    rw [foldl_innerW_skip _ _ _ h]
    exact dinsert_dsetdefault_self m.table_records t
  | UpdateRowsEvent t rows =>
    simp only [Event.skipsAll] at h
    show dinsert (dsetdefault m.table_records t []) t
        (rows.foldl (innerU (dgetD m.table_schemas t []))
          (dgetD (dsetdefault m.table_records t []) t [])) = _
    rw [foldl_innerU_skip _ _ _ h]
    exact dinsert_dsetdefault_self m.table_records t
  | DeleteRowsEvent t rows =>
    simp only [Event.skipsAll] at h
    show dinsert (dsetdefault m.table_records t []) t
        (rows.foldl (innerD (dgetD m.table_schemas t []))
          (dgetD (dsetdefault m.table_records t []) t [])) = _
    rw [foldl_innerD_skip _ _ _ h]
    exact dinsert_dsetdefault_self m.table_records t
  | OtherEvent t => rfl

/-- Deleting a key that the table's mapping does not hold is a no-op on
the whole monitor. -/
theorem delete_absent_noop (m : DatabaseMonitor) (t : String)
    (vals : List Value) (recs : List (Value × Record))
    (hsome : dget m.table_records t = some recs)
    (habs : dget recs
      (get_primary_key (zipDict (dgetD m.table_schemas t []) vals)) = none) :
    m.step (.DeleteRowsEvent t [vals]) = m := by
  apply monitor_eq
  · have htr : dsetdefault m.table_records t [] = m.table_records :=
      dsetdefault_of_isSome _ _ _ (by simp [hsome])
    show dinsert (dsetdefault m.table_records t []) t
        (([vals]).foldl (innerD (dgetD m.table_schemas t []))
          (dgetD (dsetdefault m.table_records t []) t [])) = m.table_records
    rw [htr]
    rw [show dgetD m.table_records t [] = recs by simp [dgetD, hsome]]
    rw [foldl_innerD_of_absent _ _ _ (by
      intro v hv hk
      simp only [List.mem_singleton] at hv
      subst hv
      exact habs)]
    exact dinsert_self _ _ _ hsome
  · rfl
  · rfl
  · rfl

/-- A delete event is idempotent: processing it twice is processing it
once. -/
theorem delete_step_idem (m : DatabaseMonitor) (t : String)
    (rows : List (List Value)) :
    (m.step (.DeleteRowsEvent t rows)).step (.DeleteRowsEvent t rows)
      = m.step (.DeleteRowsEvent t rows) := by
  have hrec : (m.step (.DeleteRowsEvent t rows)).table_records
      = dinsert (dsetdefault m.table_records t []) t
          (rows.foldl (innerD (dgetD m.table_schemas t []))
            (dgetD (dsetdefault m.table_records t []) t [])) := rfl
  have hget1 : dget (m.step (.DeleteRowsEvent t rows)).table_records t
      = some (rows.foldl (innerD (dgetD m.table_schemas t []))
          (dgetD (dsetdefault m.table_records t []) t [])) := by
    rw [hrec]
    exact dget_dinsert_self _ _ _
  apply monitor_eq
  · show dinsert
        (dsetdefault (m.step (.DeleteRowsEvent t rows)).table_records t []) t
        (rows.foldl
          (innerD (dgetD (m.step (.DeleteRowsEvent t rows)).table_schemas t []))
          (dgetD (dsetdefault (m.step (.DeleteRowsEvent t rows)).table_records t [])
            t []))
      = (m.step (.DeleteRowsEvent t rows)).table_records
    rw [dsetdefault_of_isSome _ _ _ (by simp [hget1])]
    rw [show (m.step (.DeleteRowsEvent t rows)).table_schemas = m.table_schemas
      from rfl]
    rw [show dgetD (m.step (.DeleteRowsEvent t rows)).table_records t []
        = rows.foldl (innerD (dgetD m.table_schemas t []))
            (dgetD (dsetdefault m.table_records t []) t []) by
      simp [dgetD, hget1]]
    rw [foldl_innerD_of_absent _ _ _ (fun v hv hk =>
      dget_foldl_innerD_removed (dgetD m.table_schemas t []) rows
        (dgetD (dsetdefault m.table_records t []) t []) v hv hk)]
    rw [hrec, dinsert_dinsert]
  · rfl
  · rfl
  · rfl

/-- Claim C1: processing a finite event stream through `handle_event`
from an empty store yields, at every table and key, the last-write-wins
fold of the stream: the record of the last key-resolving upsert (insert
values or update after-values), absent if the last key-resolving
operation was a delete or no upsert for that key ever occurred; skipped
unkeyable rows contribute nothing. -/
theorem handle_event_stream_lww (schemas : Schemas) (dir : String)
    (events : List Event) (t : String) (k : Value) :
    lookupRecord ((events.foldl DatabaseMonitor.step
        { table_records := [], table_schemas := schemas, recording := true,
          output_dir := dir }).table_records) t k
      = (lwwLookup (events.flatMap (fun e => e.ops schemas)) t k).getD none := by
  rw [lookupRecord_foldl]
  rfl

/-- Claim C2 (counterexample): an event whose only row is unkeyable, for
a table absent from the store, emits no warning, and `table_records` is
not byte-for-byte unchanged — the `setdefault` creates a fresh empty
entry. -/
theorem handle_event_unkeyable_cex :
    (exEmptyMonitor.handle_event exUnkeyedEvent).2 = []
    ∧ (exEmptyMonitor.step exUnkeyedEvent).table_records
        ≠ exEmptyMonitor.table_records
    ∧ exUnkeyedEvent.skipsAll exEmptyMonitor.table_schemas = true := by
  refine ⟨rfl, by decide, rfl⟩

/-- Claim C2 (amended): for an event whose rows all fail key resolution,
`handle_event` applies neither an upsert nor a remove and emits no log
message (the drop is silent, not warned); `table_records` changes only
by the `setdefault` of the event's table, so it is byte-for-byte
unchanged whenever the event's table already has an entry. -/
theorem handle_event_unkeyable_skip (m : DatabaseMonitor) (e : Event)
    (h : e.skipsAll m.table_schemas = true) :
    (m.handle_event e).2 = []
    ∧ (m.step e).table_records = dsetdefault m.table_records e.table []
    ∧ ((dget m.table_records e.table).isSome →
        (m.step e).table_records = m.table_records) := by
  have hskip := step_records_of_skipsAll m e h
  exact ⟨handle_event_log m e, hskip,
    fun hs => by rw [hskip, dsetdefault_of_isSome _ _ _ hs]⟩

theorem handle_event_unkeyable_skip_witness :
    (exMonitor.handle_event exUnkeyedEvent).2 = []
    ∧ (exMonitor.step exUnkeyedEvent).table_records
        = dsetdefault exMonitor.table_records exUnkeyedEvent.table []
    ∧ ((dget exMonitor.table_records exUnkeyedEvent.table).isSome →
        (exMonitor.step exUnkeyedEvent).table_records
          = exMonitor.table_records) :=
  handle_event_unkeyable_skip exMonitor exUnkeyedEvent (by rfl)

/-- Claim C3 (counterexample): with one buffered record, a
`pymysql.Error` raised by the stream pull ends monitoring with NO flush
of `table_records` (the claim's final flush does not happen), although
the stream is closed. -/
theorem monitor_mysql_error_cex :
    (exMonitor.monitorRun (fun _ => false) [StreamItem.mysqlError]).saves = []
    ∧ (exMonitor.monitorRun (fun _ => false) [StreamItem.mysqlError]).closed
        = true
    ∧ exMonitor.table_records ≠ [] :=
  ⟨rfl, rfl, by decide⟩

/-- Claim C3 (amended): when the event-stream pull raises a database
read failure, the Streaming loop terminates and the error is logged, the
stream is closed unconditionally, and no exception propagates — but no
final flush of the accumulated `table_records` is performed; buffered
state since the last flush is simply dropped. -/
theorem monitor_mysql_error_no_flush (m : DatabaseMonitor)
    (fails : String → Bool) (items : List StreamItem)
    (h : (runLoop m items).2 = LoopExit.mysqlErr) :
    (m.monitorRun fails items).saves = []
    ∧ (m.monitorRun fails items).closed = true
    ∧ (m.monitorRun fails items).raised = false
    ∧ (m.monitorRun fails items).log
        = ["MySQL Error", "Binlog monitoring stopped."] := by
  simp [DatabaseMonitor.monitorRun, h]

theorem monitor_mysql_error_no_flush_witness :
    (exMonitor.monitorRun (fun _ => true) [StreamItem.mysqlError]).saves = []
    ∧ (exMonitor.monitorRun (fun _ => true) [StreamItem.mysqlError]).closed
        = true
    ∧ (exMonitor.monitorRun (fun _ => true) [StreamItem.mysqlError]).raised
        = false
    ∧ (exMonitor.monitorRun (fun _ => true) [StreamItem.mysqlError]).log
        = ["MySQL Error", "Binlog monitoring stopped."] :=
  monitor_mysql_error_no_flush exMonitor (fun _ => true)
    [StreamItem.mysqlError] (by rfl)

/-- Claim C4 (counterexample): `save_changes` produces exactly one file
operation for the one-table store — a direct write of the JSON array to
the final artifact path — and no atomic rename of a temporary file ever
appears in the trace. -/
theorem save_changes_direct_write_cex :
    (exMonitor.save_changes (fun _ => false)).ops
      = [FsOp.write "out/users.json"
          (Json.arr [Json.obj
            [("id", Json.num 1), ("name", Json.str "Ann"),
              ("updated_at", Json.str "2024-01-02T03:04:05")]])]
    ∧ ((exMonitor.save_changes (fun _ => false)).ops.all
        (fun op => !op.isRename)) = true :=
  ⟨rfl, rfl⟩

/-- Claim C4 (amended): every file operation `save_changes` performs is
a direct in-place write of a table's full JSON array to that table's
final output path; no temporary location and no atomic replacement is
used. -/
theorem save_changes_writes_in_place (m : DatabaseMonitor)
    (fails : String → Bool) :
    ((m.save_changes fails).ops.all (fun op => !op.isRename)) = true
    ∧ (∀ op ∈ (m.save_changes fails).ops, ∃ e ∈ m.table_records,
        op = FsOp.write (tablePath m.output_dir e.1) (tableJson e.2)) := by
  have hops : (m.save_changes fails).ops
      = (m.table_records.takeWhile
            (fun e => !fails (tablePath m.output_dir e.1))).map
          (fun e => FsOp.write (tablePath m.output_dir e.1) (tableJson e.2)) := by
    simp [DatabaseMonitor.save_changes, saveLoop_spec]
  constructor
  · rw [hops, List.all_eq_true]
    intro op hop
    obtain ⟨e, he, rfl⟩ := List.mem_map.mp hop
    rfl
  · intro op hop
    rw [hops] at hop
    obtain ⟨e, he, rfl⟩ := List.mem_map.mp hop
    exact ⟨e, (List.takeWhile_sublist _).subset he, rfl⟩

theorem save_changes_writes_in_place_witness :
    ((exMonitor.save_changes (fun _ => false)).ops.all
        (fun op => !op.isRename)) = true
    ∧ (FsOp.write (tablePath exMonitor.output_dir "users") (tableJson exRecs)
        ∈ (exMonitor.save_changes (fun _ => false)).ops →
        ∃ e ∈ exMonitor.table_records,
          FsOp.write (tablePath exMonitor.output_dir "users") (tableJson exRecs)
            = FsOp.write (tablePath exMonitor.output_dir e.1) (tableJson e.2)) :=
  ⟨(save_changes_writes_in_place exMonitor (fun _ => false)).1,
    fun hm => (save_changes_writes_in_place exMonitor (fun _ => false)).2 _ hm⟩

/-- Claim C5: after a failure-free flush, every table present in
`table_records` (even with an empty key-mapping) has exactly one
artifact at `<output_dir>/<table>.json`, whose content is the JSON array
of the table's current record values with field order preserved, and
every datetime value renders as its ISO-8601 string. -/
theorem save_changes_snapshot_complete (m : DatabaseMonitor) (t : String)
    (recs : List (Value × Record))
    (hnd : (m.table_records.map Prod.fst).Nodup)
    (hget : dget m.table_records t = some recs) :
    ((m.save_changes (fun _ => false)).ops.filter
        (fun op => FsOp.path op == tablePath m.output_dir t))
      = [FsOp.write (tablePath m.output_dir t) (tableJson recs)]
    ∧ (m.save_changes (fun _ => false)).ok = true
    ∧ (∀ d : Datetime, renderValue (Value.dt d) = Json.str d.isoformat) := by
  refine ⟨?_, ?_, fun d => rfl⟩
  · have hops : (m.save_changes (fun _ => false)).ops
        = m.table_records.map
            (fun e => FsOp.write (tablePath m.output_dir e.1) (tableJson e.2)) := by
      simp [DatabaseMonitor.save_changes, saveLoop_nofail]
    rw [hops]
    exact filter_writes_single m.output_dir t recs m.table_records hnd hget
  · simp [DatabaseMonitor.save_changes, saveLoop_nofail]

theorem save_changes_snapshot_complete_witness :
    ((exMonitor.save_changes (fun _ => false)).ops.filter
        (fun op => FsOp.path op == tablePath exMonitor.output_dir "users"))
      = [FsOp.write (tablePath exMonitor.output_dir "users") (tableJson exRecs)]
    ∧ (exMonitor.save_changes (fun _ => false)).ok = true
    ∧ (∀ d : Datetime, renderValue (Value.dt d) = Json.str d.isoformat) :=
  save_changes_snapshot_complete exMonitor "users" exRecs (by decide) (by rfl)

/-- Claim C6 (counterexample): with tables `a` and `b` buffered and an
I/O failure on `a`'s artifact only, `save_changes` performs no file
operation at all — table `b`'s artifact is never attempted — and emits
no log message about the failure. -/
theorem save_changes_failure_aborts_cex :
    (exTwoTables.save_changes exFailA).ops = []
    ∧ (exTwoTables.save_changes exFailA).log = []
    ∧ (exTwoTables.save_changes exFailA).ok = false
    ∧ dget exTwoTables.table_records "b" = some [] :=
  ⟨rfl, rfl, rfl, rfl⟩

/-- Claim C6 (amended): an I/O failure on one table's artifact aborts
`save_changes` at once: only the failure-free prefix of tables is
written, the method does not complete, and nothing is logged by it (the
exception propagates to the caller). -/
theorem save_changes_failure_aborts (m : DatabaseMonitor)
    (fails : String → Bool) :
    (m.save_changes fails).ops
      = (m.table_records.takeWhile
            (fun e => !fails (tablePath m.output_dir e.1))).map
          (fun e => FsOp.write (tablePath m.output_dir e.1) (tableJson e.2))
    ∧ (m.save_changes fails).ok
      = m.table_records.all (fun e => !fails (tablePath m.output_dir e.1))
    ∧ (m.save_changes fails).log
      = (if (m.save_changes fails).ok then ["Snapshot saved."] else []) := by
  refine ⟨?_, ?_, ?_⟩ <;> simp [DatabaseMonitor.save_changes, saveLoop_spec]

/-- Claim C7 (counterexample): querying schemas for tables `a` then `b`
where only `a` fails, the loader stops at `a`: `b`'s schema — available
from the oracle — is never loaded, though the failure is logged and
startup proceeds. -/
theorem load_table_schemas_stops_cex :
    dget ((exEmptyMonitor.load_table_schemas ["a", "b"] exOracle).1.table_schemas)
        "b" = none
    ∧ (exEmptyMonitor.load_table_schemas ["a", "b"] exOracle).2
      = ["Error loading table schemas",
          "Binlog monitoring started. Press Ctrl+C to stop."]
    ∧ exOracle "b" = some ["id"] :=
  ⟨rfl, rfl, rfl⟩

/-- Claim C7 (amended): schema loading queries the source once per table
in order but stops at the first per-table failure: the failure-free
prefix is loaded, a single error line is logged (startup continues
either way), and any table left without a schema entry degrades to the
empty column list, producing empty zipped records. -/
theorem load_table_schemas_stops_at_failure (m : DatabaseMonitor)
    (tables : List String) (oracle : String → Option (List String)) :
    (m.load_table_schemas tables oracle).1.table_schemas
      = (tables.takeWhile (fun t => (oracle t).isSome)).foldl
          (fun s t => dinsert s t ((oracle t).getD [])) m.table_schemas
    ∧ (m.load_table_schemas tables oracle).2
      = (if tables.all (fun t => (oracle t).isSome) then []
          else ["Error loading table schemas"]) ++
        ["Binlog monitoring started. Press Ctrl+C to stop."]
    ∧ (∀ t vals,
        dget (m.load_table_schemas tables oracle).1.table_schemas t = none →
        zipDict (dgetD (m.load_table_schemas tables oracle).1.table_schemas t [])
          vals = []) := by
  refine ⟨?_, ?_, fun t vals h => ?_⟩
  · simp [DatabaseMonitor.load_table_schemas, loadLoop_spec]
  · simp [DatabaseMonitor.load_table_schemas, loadLoop_spec]
  · rw [dgetD, h]
    rfl

theorem load_table_schemas_stops_at_failure_witness :
    (exEmptyMonitor.load_table_schemas ["a", "b"] exOracle).1.table_schemas
      = ((["a", "b"].takeWhile (fun t => (exOracle t).isSome)).foldl
          (fun s t => dinsert s t ((exOracle t).getD []))
          exEmptyMonitor.table_schemas)
    ∧ zipDict
        (dgetD (exEmptyMonitor.load_table_schemas ["a", "b"] exOracle).1.table_schemas
          "b" []) [Value.int 2] = [] :=
  ⟨(load_table_schemas_stops_at_failure exEmptyMonitor ["a", "b"] exOracle).1,
    (load_table_schemas_stops_at_failure exEmptyMonitor ["a", "b"] exOracle).2.2
      "b" [Value.int 2] (by rfl)⟩

/-- Claim C8: one event mutates at most its own table's entry:
`table_schemas` is unchanged and every other table's `table_records`
entry is untouched. -/
theorem handle_event_frame (m : DatabaseMonitor) (e : Event) :
    (m.step e).table_schemas = m.table_schemas
    ∧ (∀ t : String, t ≠ e.table →
        dget (m.step e).table_records t = dget m.table_records t) :=
  ⟨step_table_schemas m e, fun t ht => dget_step_ne m e t ht⟩

theorem handle_event_frame_witness :
    (exMonitor.step exUnkeyedEvent).table_schemas = exMonitor.table_schemas
    ∧ dget (exMonitor.step exUnkeyedEvent).table_records "users"
      = dget exMonitor.table_records "users" :=
  ⟨(handle_event_frame exMonitor exUnkeyedEvent).1,
    (handle_event_frame exMonitor exUnkeyedEvent).2 "users" (by decide)⟩

/-- Claim C9: removal is idempotent — a delete for a key absent from the
table's mapping is a silent no-op leaving the monitor unchanged, and
processing the same delete event twice in a row equals processing it
once. -/
theorem delete_idempotent :
    (∀ (m : DatabaseMonitor) (t : String) (vals : List Value)
        (recs : List (Value × Record)),
        dget m.table_records t = some recs →
        dget recs
          (get_primary_key (zipDict (dgetD m.table_schemas t []) vals)) = none →
        m.step (.DeleteRowsEvent t [vals]) = m)
    ∧ (∀ (m : DatabaseMonitor) (t : String) (rows : List (List Value)),
        (m.step (.DeleteRowsEvent t rows)).step (.DeleteRowsEvent t rows)
          = m.step (.DeleteRowsEvent t rows)) :=
  ⟨fun m t vals recs h1 h2 => delete_absent_noop m t vals recs h1 h2,
    fun m t rows => delete_step_idem m t rows⟩

theorem delete_idempotent_witness :
    exMonitor.step (.DeleteRowsEvent "users" [[Value.int 9]]) = exMonitor :=
  delete_idempotent.1 exMonitor "users" [Value.int 9] exRecs (by rfl) (by rfl)

/-- Claim C10: after any event the store has an entry for the event's
table; when the table was absent and the event is fully skipped (all
rows unkeyable, or an unhandled event type), the entry is a fresh empty
mapping, and a later failure-free flush writes an empty JSON array
artifact for that table. -/
theorem handle_event_table_entry (m : DatabaseMonitor) (e : Event) :
    ((dget (m.step e).table_records e.table).isSome = true)
    ∧ (dget m.table_records e.table = none →
        e.skipsAll m.table_schemas = true →
        dget (m.step e).table_records e.table = some []
        ∧ FsOp.write (tablePath m.output_dir e.table) (Json.arr [])
            ∈ ((m.step e).save_changes (fun _ => false)).ops) := by
  refine ⟨by simpa using dget_step_self_isSome m e, fun habs hskip => ?_⟩
  have hget : dget (m.step e).table_records e.table = some [] := by
    rw [step_records_of_skipsAll m e hskip, dget_dsetdefault]
    simp [habs]
  refine ⟨hget, ?_⟩
  have hmem : (e.table, ([] : List (Value × Record))) ∈ (m.step e).table_records :=
    dget_mem _ _ _ hget
  have hops : ((m.step e).save_changes (fun _ => false)).ops
      = (m.step e).table_records.map
          (fun en => FsOp.write (tablePath (m.step e).output_dir en.1)
            (tableJson en.2)) := by
    simp [DatabaseMonitor.save_changes, saveLoop_nofail]
  rw [hops, step_output_dir]
  have hin := List.mem_map_of_mem
    (fun en : String × List (Value × Record) =>
      FsOp.write (tablePath m.output_dir en.1) (tableJson en.2)) hmem
  simpa [tableJson] using hin

theorem handle_event_table_entry_witness :
    ((dget (exEmptyMonitor.step exUnkeyedEvent).table_records
        exUnkeyedEvent.table).isSome = true)
    ∧ (dget (exEmptyMonitor.step exUnkeyedEvent).table_records
          exUnkeyedEvent.table = some []
        ∧ FsOp.write (tablePath exEmptyMonitor.output_dir exUnkeyedEvent.table)
            (Json.arr [])
            ∈ ((exEmptyMonitor.step exUnkeyedEvent).save_changes
                (fun _ => false)).ops) :=
  ⟨(handle_event_table_entry exEmptyMonitor exUnkeyedEvent).1,
    (handle_event_table_entry exEmptyMonitor exUnkeyedEvent).2 (by rfl) (by rfl)⟩
